import Mathlib

/-!
Verification of the GigaAMGUI job-orchestration layer against its
natural-language specification.  The Python sources are shallowly embedded:
pure functions become Lean functions over exact rationals (Python floats are
modelled as exact rational arithmetic), dictionaries become association lists
or structures with `Option` fields for possibly-absent keys, and the
collaborator calls (ffmpeg, the ASR model, the pyannote diarizer) become
oracle parameters describing their outcome.
-/

/-! ### Speaker diarization (src/utils/diarization.py) -/

/-- A diarization turn: `SpeakerSegment` from src/utils/diarization.py
(fields `start`, `end`, `speaker`; `end` is a Lean keyword, rendered
`endTime`). -/
structure SpeakerSegment where
  start : ℚ
  endTime : ℚ
  speaker : String
deriving DecidableEq, Repr

/-- A transcript segment: the `utterances` dicts produced by the ASR model
and consumed by `map_speakers_to_transcription` and the renderers.  The
`speaker` key may be absent (`none`). -/
structure Utt where
  transcription : String
  boundaries : ℚ × ℚ
  speaker : Option String
deriving DecidableEq, Repr

/-- `DiarizationManager._find_speaker_at_time`: first turn (in list order)
with `seg.start <= time <= seg.end`, else `None`. -/
def find_speaker_at_time (time : ℚ) : List SpeakerSegment → Option String
  | [] => none
  | seg :: rest =>
      if seg.start ≤ time ∧ time ≤ seg.endTime then some seg.speaker
      else find_speaker_at_time time rest

/-- The overlap a turn has with the window `[start, endT]`:
`max(0, min(end, sp_seg.end) - max(start, sp_seg.start))` from
`_find_speaker_by_overlap`. -/
def overlapWith (start endT : ℚ) (sp_seg : SpeakerSegment) : ℚ :=
  max 0 (min endT sp_seg.endTime - max start sp_seg.start)

/-- The loop of `DiarizationManager._find_speaker_by_overlap`, carrying the
running `max_overlap` and `best_speaker`. -/
def find_speaker_by_overlap_loop (start endT : ℚ) :
    List SpeakerSegment → ℚ → Option String → Option String
  | [], _, best_speaker => best_speaker
  | sp_seg :: rest, max_overlap, best_speaker =>
      if overlapWith start endT sp_seg > max_overlap then
        find_speaker_by_overlap_loop start endT rest
          (overlapWith start endT sp_seg) (some sp_seg.speaker)
      else
        find_speaker_by_overlap_loop start endT rest max_overlap best_speaker

/-- `DiarizationManager._find_speaker_by_overlap`: speaker of the turn with
the largest strictly positive overlap (`max_overlap` starts at `0` and only a
strict improvement is taken). -/
def find_speaker_by_overlap (start endT : ℚ)
    (speaker_segments : List SpeakerSegment) : Option String :=
  find_speaker_by_overlap_loop start endT speaker_segments 0 none

/-- Python truthiness of the final assignment
`trans_seg['speaker'] = speaker if speaker else "Неизвестный спикер"`:
both `None` and the empty string are falsy. -/
def speakerOrUnknown : Option String → String
  | some s => if s = "" then "Неизвестный спикер" else s
  | none => "Неизвестный спикер"

/-- The per-segment body of `map_speakers_to_transcription`: midpoint lookup
first, overlap fallback second, sentinel label last. -/
def assign_speaker (speaker_segments : List SpeakerSegment) (trans_seg : Utt) :
    Utt :=
  let start := trans_seg.boundaries.1
  let endT := trans_seg.boundaries.2
  let midpoint := (start + endT) / 2
  let speaker :=
    match find_speaker_at_time midpoint speaker_segments with
    | some s => some s
    | none => find_speaker_by_overlap start endT speaker_segments
  { trans_seg with speaker := some (speakerOrUnknown speaker) }

/-- `DiarizationManager.map_speakers_to_transcription`: assigns a speaker to
every transcript segment. -/
def map_speakers_to_transcription (transcription_segments : List Utt)
    (speaker_segments : List SpeakerSegment) : List Utt :=
  transcription_segments.map (assign_speaker speaker_segments)

/-- The first loop of `DiarizationManager._rename_speakers`: collect raw
speaker ids in order of first appearance (`seen` set and `speaker_order`
list; membership in the accumulator plays the role of the `seen` set). -/
def speaker_order_loop : List SpeakerSegment → List String → List String
  | [], speaker_order => speaker_order
  | seg :: rest, speaker_order =>
      if seg.speaker ∈ speaker_order then speaker_order_loop rest speaker_order
      else speaker_order_loop rest (speaker_order ++ [seg.speaker])

/-- Raw speaker ids in order of first appearance in the turn list. -/
def speaker_order (segments : List SpeakerSegment) : List String :=
  speaker_order_loop segments []

/-- The ordinal label `"Спикер №{i+1}"` given to the id at position `i` of
`speaker_order` (the `speaker_map` dict comprehension). -/
def speakerLabel (i : ℕ) : String := "Спикер №" ++ toString (i + 1)

/-- `DiarizationManager._rename_speakers`: every turn's raw id is replaced by
`speaker_map.get(seg.speaker, seg.speaker)`, the dict lookup modelled by the
position of the id in `speaker_order`. -/
def rename_speakers (segments : List SpeakerSegment) : List SpeakerSegment :=
  let order := speaker_order segments
  segments.map fun seg =>
    { seg with
      speaker :=
        if seg.speaker ∈ order then speakerLabel (order.indexOf seg.speaker)
        else seg.speaker }

/-- The relabelling map applied by `rename_speakers` to each raw id: the
`speaker_map.get(seg.speaker, seg.speaker)` dict lookup as a function of the
raw id. -/
def speaker_relabel (segments : List SpeakerSegment) (r : String) : String :=
  if r ∈ speaker_order segments then
    speakerLabel ((speaker_order segments).indexOf r)
  else r

/-- Canonical "keep the first occurrence" deduplication, used to state what
first-appearance order means. -/
def firstAppear : List String → List String
  | [] => []
  | s :: rest => s :: firstAppear (rest.filter (fun x => x ≠ s))
termination_by l => l.length
decreasing_by
  simp only [List.length_cons]
  exact Nat.lt_succ_of_le (List.length_filter_le _ _)

/-! ### Processing statistics (src/utils/processing_stats.py) -/

/-- Round-half-to-even to an integer: the rounding of Python's builtin
`round` (floats are modelled as exact rationals, so the tie between two
integers is resolved toward the even one). -/
def roundHalfEven (x : ℚ) : ℤ :=
  if x - ⌊x⌋ < 1/2 then ⌊x⌋
  else if x - ⌊x⌋ > 1/2 then ⌊x⌋ + 1
  else if ⌊x⌋ % 2 = 0 then ⌊x⌋ else ⌊x⌋ + 1

/-- Python's `round(x, n)` on the exact-rational model of floats. -/
def pyRound (x : ℚ) (n : ℕ) : ℚ := (roundHalfEven (x * 10 ^ n) : ℚ) / 10 ^ n

/-- One entry of the `stats["history"]` list, restricted to the keys that
`_update_summary` and `estimate_processing_time` read (`timestamp`,
`file_name` and `file_size_mb` are stored but never consulted by the
estimator). -/
structure Record where
  file_extension : String
  total_duration : ℚ
  conversion_time : ℚ
  transcription_time : ℚ
  success : Bool
deriving DecidableEq, Repr

/-- One entry of `stats["summary"]` as written by `_update_summary`
(`avg_size_mb` depends on the unread `file_size_mb` and is omitted). -/
structure ExtSummary where
  count : ℕ
  avg_media_duration_sec : ℚ
  avg_conversion_sec : ℚ
  avg_transcription_sec : ℚ
  processing_ratio : ℚ
  conversion_ratio : ℚ
  transcription_ratio : ℚ
deriving DecidableEq, Repr

/-- The averages `_update_summary` computes for one extension's group of
successful records, with the `round(..., 2)` / `round(..., 3)` applied to the
stored values and the `1.0` / `0.05` / `0.95` defaults when the average media
duration is not positive. -/
def summarize (records : List Record) : ExtSummary :=
  let n : ℚ := records.length
  let avg_media_duration := (records.map Record.total_duration).sum / n
  let avg_conversion := (records.map Record.conversion_time).sum / n
  let avg_transcription := (records.map Record.transcription_time).sum / n
  let avg_total_time := avg_conversion + avg_transcription
  let processing_ratio :=
    if avg_media_duration > 0 then avg_total_time / avg_media_duration else 1
  let conversion_ratio :=
    if avg_media_duration > 0 then avg_conversion / avg_media_duration
    else 1/20
  let transcription_ratio :=
    if avg_media_duration > 0 then avg_transcription / avg_media_duration
    else 19/20
  { count := records.length
    avg_media_duration_sec := pyRound avg_media_duration 2
    avg_conversion_sec := pyRound avg_conversion 2
    avg_transcription_sec := pyRound avg_transcription 2
    processing_ratio := pyRound processing_ratio 3
    conversion_ratio := pyRound conversion_ratio 3
    transcription_ratio := pyRound transcription_ratio 3 }

/-- The statistics state `{"history": [...], "summary": {...}}`; the summary
dict becomes an association list in Python insertion order. -/
structure Stats where
  history : List Record
  summary : List (String × ExtSummary)
deriving Repr

/-- The keys of the `by_extension` grouping dict, in Python dict insertion
order, i.e. first appearance among the successful records. -/
def groupExts (successful : List Record) : List String :=
  firstAppear (successful.map Record.file_extension)

/-- `ProcessingStats._update_summary`: recompute the whole per-extension
summary from the successful records, grouped by extension; a no-op when the
history, or its successful part, is empty. -/
def update_summary (st : Stats) : Stats :=
  if st.history = [] then st
  else
    let successful := st.history.filter Record.success
    if successful = [] then st
    else
      { st with
        summary :=
          (groupExts successful).map fun ext =>
            (ext, summarize (successful.filter
              (fun r => r.file_extension = ext))) }

/-- `ProcessingStats.add_processing_record`: append the record (with
`round(..., 2)` applied to the stored numeric fields) and eagerly recompute
the summary.  The extension `os.path.splitext(file_path)[1].lower()` is taken
directly as an argument. -/
def add_processing_record (st : Stats) (file_ext : String)
    (duration conversion_time transcription_time : ℚ) (success : Bool) :
    Stats :=
  update_summary
    { st with
      history := st.history ++
        [{ file_extension := file_ext
           total_duration := pyRound duration 2
           conversion_time := pyRound conversion_time 2
           transcription_time := pyRound transcription_time 2
           success := success }] }

/-- `ProcessingStats.estimate_processing_time`: `30.0` when the probed media
duration is not positive; otherwise per-extension summary ratio, then the
average of the per-record ratios of all successful records with positive
duration, then the `0.5 *` fallback, each floored at `5` seconds. -/
def estimate_processing_time (st : Stats) (file_ext : String)
    (media_duration : ℚ) : ℚ :=
  if media_duration ≤ 0 then 30
  else
    match st.summary.lookup file_ext with
    | some ext_stats => max (media_duration * ext_stats.processing_ratio) 5
    | none =>
      let all_records := st.history.filter
        (fun r => r.success && decide (0 < r.total_duration))
      if all_records ≠ [] then
        let total_ratios := all_records.filterMap fun r =>
          if 0 < r.total_duration then
            some ((r.conversion_time + r.transcription_time) /
              r.total_duration)
          else none
        if total_ratios ≠ [] then
          max (media_duration * (total_ratios.sum / total_ratios.length)) 5
        else max (media_duration * (1/2)) 5
      else max (media_duration * (1/2)) 5

/-- The summary an up-to-date state carries, as a function of the history
alone (used to characterize the states reachable through
`add_processing_record`). -/
def computedSummary (history : List Record) : List (String × ExtSummary) :=
  let successful := history.filter Record.success
  if successful = [] then []
  else
    (groupExts successful).map fun ext =>
      (ext, summarize (successful.filter (fun r => r.file_extension = ext)))

/-- The stored per-extension average processing ratio (the claim's
"extension's average processing ratio"): ratio of average total processing
time to average media duration over that extension's successful records,
rounded to three decimals, with the `1.0` default when the average media
duration is not positive. -/
def ext_processing_ratio (history : List Record) (ext : String) : ℚ :=
  (summarize ((history.filter Record.success).filter
    (fun r => r.file_extension = ext))).processing_ratio

/-- The global average per-record processing ratio over the successful
records with positive stored duration. -/
def global_avg_ratio (history : List Record) : ℚ :=
  let total_ratios := (history.filter
      (fun r => r.success && decide (0 < r.total_duration))).map fun r =>
    (r.conversion_time + r.transcription_time) / r.total_duration
  total_ratios.sum / total_ratios.length

/-- The statistics states reachable from a fresh (empty) statistics file by
repeated `add_processing_record` calls. -/
inductive ReachableStats : Stats → Prop
  | init : ReachableStats ⟨[], []⟩
  | add (st : Stats) (file_ext : String) (d c t : ℚ) (s : Bool) :
      ReachableStats st →
      ReachableStats (add_processing_record st file_ext d c t s)

/-! ### Admission control (src/api.py: lifespan, process_transcription) -/

/-- The scheduling state of the API process: `waiting` jobs are submitted
tasks still pending on `async with processing_semaphore`, `running` jobs are
inside that block (executing the pipeline body of `process_transcription`),
`permits` is the free count of the `asyncio.Semaphore(MAX_CONCURRENT_TASKS)`
created in `lifespan`, and `finished` jobs have left the block. -/
structure SemState where
  waiting : ℕ
  running : ℕ
  permits : ℕ
  finished : ℕ
deriving DecidableEq, Repr

/-- The transitions of the admission gate: a new upload enqueues a background
task; a pending task enters the `async with` body only by taking a free
permit; leaving the body — on success, failure or exception — gives the
permit back (the semantics of `async with` on a semaphore). -/
inductive SemStep (N : ℕ) : SemState → SemState → Prop
  | submit (s : SemState) :
      SemStep N s { s with waiting := s.waiting + 1 }
  | acquire (s : SemState) : 0 < s.waiting → 0 < s.permits →
      SemStep N s
        { waiting := s.waiting - 1, running := s.running + 1,
          permits := s.permits - 1, finished := s.finished }
  | release (s : SemState) : 0 < s.running →
      SemStep N s
        { waiting := s.waiting, running := s.running - 1,
          permits := s.permits + 1, finished := s.finished + 1 }

/-- States reachable from API startup, where the semaphore holds `N` free
permits and no task exists. -/
inductive SemReachable (N : ℕ) : SemState → Prop
  | init : SemReachable N ⟨0, 0, N, 0⟩
  | step {s s' : SemState} : SemReachable N s → SemStep N s s' →
      SemReachable N s'

/-! ### The multi-format renderers (src/core/processor.py) -/

/-- Python's `str.strip()` whitespace set (the characters `str.isspace`
recognizes). -/
def pyIsSpace (c : Char) : Bool :=
  decide (c = ' ' ∨ c = '\t' ∨ c = '\n' ∨ c = '\x0b' ∨ c = '\x0c' ∨
    c = '\x0d' ∨ c = '\x1c' ∨ c = '\x1d' ∨ c = '\x1e' ∨ c = '\x1f' ∨
    c = '\x85' ∨ c = '\xa0' ∨ c = '\u1680' ∨
    ('\u2000' ≤ c ∧ c ≤ '\u200a') ∨ c = '\u2028' ∨ c = '\u2029' ∨
    c = '\u202f' ∨ c = '\u205f' ∨ c = '\u3000')

/-- The renderers' skip test `not text or not text.strip()`: true exactly for
the empty string and whitespace-only strings. -/
def isBlank (s : String) : Bool := s.data.all pyIsSpace

/-- Python truthiness of an optional speaker label (`if speaker:`): `None`
and the empty string are falsy. -/
def optTruthy : Option String → Bool
  | some s => decide (s ≠ "")
  | none => false

/-- `"%02d" % n`. -/
def pad2 (n : ℤ) : String :=
  if 0 ≤ n ∧ n < 10 then "0" ++ toString n else toString n

/-- `"%03d" % n`. -/
def pad3 (n : ℤ) : String :=
  if 0 ≤ n ∧ n < 10 then "00" ++ toString n
  else if 0 ≤ n ∧ n < 100 then "0" ++ toString n
  else toString n

/-- Python's `int(x)` on a float (truncation toward zero), on the
exact-rational model. -/
def pyInt (x : ℚ) : ℤ := if 0 ≤ x then ⌊x⌋ else -⌊-x⌋

/-- `TimeFormatter.format_timestamp`: `divmod(seconds, 60)` then
`divmod(m, 60)`; `HH:MM:SS` when the hour part is positive, else `MM:SS`.
Python float `divmod` is floor division with a remainder of the divisor's
sign, and the remainders lie in `[0, 60)`, so the `int(...)` truncations
coincide with floors. -/
def format_timestamp (seconds : ℚ) : String :=
  let m : ℤ := ⌊seconds / 60⌋
  let s : ℤ := ⌊seconds - 60 * (m : ℚ)⌋
  let h : ℤ := Int.fdiv m 60
  let m2 : ℤ := m % 60
  if h > 0 then pad2 h ++ ":" ++ pad2 m2 ++ ":" ++ pad2 s
  else pad2 m2 ++ ":" ++ pad2 s

/-- `TranscriptionProcessor._format_srt_timestamp`: `HH:MM:SS,mmm`. -/
def format_srt_timestamp (seconds : ℚ) : String :=
  let hours : ℤ := ⌊seconds / 3600⌋
  let minutes : ℤ := ⌊(seconds - 3600 * (⌊seconds / 3600⌋ : ℚ)) / 60⌋
  let secs : ℤ := ⌊seconds - 60 * (⌊seconds / 60⌋ : ℚ)⌋
  let millis : ℤ := pyInt ((seconds - (pyInt seconds : ℚ)) * 1000)
  pad2 hours ++ ":" ++ pad2 minutes ++ ":" ++ pad2 secs ++ "," ++ pad3 millis

/-- `TranscriptionProcessor._format_vtt_timestamp`: `HH:MM:SS.mmm`. -/
def format_vtt_timestamp (seconds : ℚ) : String :=
  let hours : ℤ := ⌊seconds / 3600⌋
  let minutes : ℤ := ⌊(seconds - 3600 * (⌊seconds / 3600⌋ : ℚ)) / 60⌋
  let secs : ℤ := ⌊seconds - 60 * (⌊seconds / 60⌋ : ℚ)⌋
  let millis : ℤ := pyInt ((seconds - (pyInt seconds : ℚ)) * 1000)
  pad2 hours ++ ":" ++ pad2 minutes ++ ":" ++ pad2 secs ++ "." ++ pad3 millis

/-- A `[start - end] text` line of the timecoded plain output. -/
def ts_plain (start endT : ℚ) (text : String) : String :=
  "[" ++ format_timestamp start ++ " - " ++ format_timestamp endT ++ "] " ++
    text

/-- A `[start - end] speaker: text` line of the diarized timecoded output. -/
def ts_diarized (start endT : ℚ) (speaker text : String) : String :=
  "[" ++ format_timestamp start ++ " - " ++ format_timestamp endT ++ "] " ++
    speaker ++ ": " ++ text

/-- The four line lists the `for utt in utterances` loop of
`process_file` builds. -/
structure RenderLists where
  full_text_lines_plain : List String
  timecoded_lines_plain : List String
  full_text_lines_diarized : List String
  timecoded_lines_diarized : List String
deriving DecidableEq, Repr

/-- The rendering loop of `process_file` (lines building the plain,
timecoded and diarized outputs), carrying the `current_speaker` state; blank
segments are skipped before anything else happens. -/
def build_render_lists (enable_diarization : Bool) :
    List Utt → Option String → RenderLists
  | [], _ => ⟨[], [], [], []⟩
  | utt :: rest, current_speaker =>
    if isBlank utt.transcription then
      build_render_lists enable_diarization rest current_speaker
    else
      let start := utt.boundaries.1
      let endT := utt.boundaries.2
      if enable_diarization && optTruthy utt.speaker then
        let speaker := utt.speaker.getD ""
        let header :=
          if some speaker ≠ current_speaker then
            (if current_speaker ≠ none then [""] else []) ++
              ["[" ++ speaker ++ "]"]
          else []
        let r := build_render_lists enable_diarization rest (some speaker)
        ⟨utt.transcription :: r.full_text_lines_plain,
         ts_plain start endT utt.transcription :: r.timecoded_lines_plain,
         header ++ utt.transcription :: r.full_text_lines_diarized,
         ts_diarized start endT speaker utt.transcription ::
           r.timecoded_lines_diarized⟩
      else
        let r := build_render_lists enable_diarization rest current_speaker
        ⟨utt.transcription :: r.full_text_lines_plain,
         ts_plain start endT utt.transcription :: r.timecoded_lines_plain,
         utt.transcription :: r.full_text_lines_diarized,
         ts_plain start endT utt.transcription ::
           r.timecoded_lines_diarized⟩

/-- The line list of `TranscriptionProcessor._generate_srt`, carrying the
1-based `index` that only advances on rendered (non-blank) segments. -/
def generate_srt_lines (index : ℕ) : List Utt → List String
  | [] => []
  | utt :: rest =>
    if isBlank utt.transcription then generate_srt_lines index rest
    else
      toString index ::
        (format_srt_timestamp utt.boundaries.1 ++ " --> " ++
          format_srt_timestamp utt.boundaries.2) ::
        (if optTruthy utt.speaker then
          "<" ++ utt.speaker.getD "" ++ "> " ++ utt.transcription
         else utt.transcription) ::
        "" :: generate_srt_lines (index + 1) rest

/-- `TranscriptionProcessor._generate_srt`. -/
def generate_srt (utterances : List Utt) : String :=
  String.intercalate "\n" (generate_srt_lines 1 utterances)

/-- The per-segment lines of `TranscriptionProcessor._generate_vtt`. -/
def generate_vtt_lines : List Utt → List String
  | [] => []
  | utt :: rest =>
    if isBlank utt.transcription then generate_vtt_lines rest
    else
      (format_vtt_timestamp utt.boundaries.1 ++ " --> " ++
        format_vtt_timestamp utt.boundaries.2) ::
      (if optTruthy utt.speaker then
        "<v " ++ utt.speaker.getD "" ++ ">" ++ utt.transcription
       else utt.transcription) ::
      "" :: generate_vtt_lines rest

/-- `TranscriptionProcessor._generate_vtt` (the `WEBVTT` header first). -/
def generate_vtt (utterances : List Utt) : String :=
  String.intercalate "\n" ("WEBVTT" :: "" :: generate_vtt_lines utterances)

/-- The fixed header of `TranscriptionProcessor._generate_markdown`. -/
def md_header (filename : String) : List String :=
  ["# Транскрипция: " ++ filename, "",
   "*Создано с помощью GigaAM v3 Transcriber*", "", "---", ""]

/-- The per-segment lines of `_generate_markdown`, with the
`current_speaker` grouping state. -/
def generate_md_lines : List Utt → Option String → List String
  | [], _ => []
  | utt :: rest, current_speaker =>
    if isBlank utt.transcription then generate_md_lines rest current_speaker
    else
      let time_str := "`" ++ format_timestamp utt.boundaries.1 ++ " - " ++
        format_timestamp utt.boundaries.2 ++ "`"
      if optTruthy utt.speaker then
        let speaker := utt.speaker.getD ""
        let header :=
          if some speaker ≠ current_speaker then ["", "### " ++ speaker, ""]
          else []
        header ++ ("- " ++ time_str ++ " " ++ utt.transcription) ::
          generate_md_lines rest (some speaker)
      else
        ("- " ++ time_str ++ " " ++ utt.transcription) ::
          generate_md_lines rest current_speaker

/-- `TranscriptionProcessor._generate_markdown`. -/
def generate_markdown (utterances : List Utt) (filename : String) : String :=
  String.intercalate "\n" (md_header filename ++ generate_md_lines utterances none)

/-! ### Conversion and the per-file pipeline (src/utils/audio_converter.py,
src/core/processor.py, src/api.py) -/

/-- The outcome of the external `ffmpeg` conversion process: exit status 0
with the output written; a nonzero exit status, possibly after partially
writing the output file; or `FileNotFoundError` (ffmpeg absent, nothing
written). -/
inductive ConvOutcome
  | ok
  | fail (wrotePartialFile : Bool)
  | ffmpegMissing
deriving DecidableEq, Repr

/-- `temp_filename = f"temp_{os.path.basename(input_path)}.wav"`. -/
def temp_filename (input_basename : String) : String :=
  "temp_" ++ input_basename ++ ".wav"

/-- The value and disk effect of `AudioConverter.convert_to_wav`. -/
structure ConvResult where
  temp_audio : Option String
  disk : List String
deriving DecidableEq, Repr

/-- `AudioConverter.convert_to_wav`: `None` when the input is missing, when
ffmpeg is absent, or when ffmpeg exits nonzero; the temp WAV path on
success.  No branch of the function deletes the output file, so a partial
file written by a failing ffmpeg stays on disk. -/
def convert_to_wav (input_exists : Bool) (outcome : ConvOutcome)
    (input_basename output_dir : String) (disk : List String) : ConvResult :=
  if !input_exists then ⟨none, disk⟩
  else
    let temp_wav := output_dir ++ "/" ++ temp_filename input_basename
    match outcome with
    | ConvOutcome.ok => ⟨some temp_wav, temp_wav :: disk⟩
    | ConvOutcome.fail wrotePartialFile =>
        ⟨none, if wrotePartialFile then temp_wav :: disk else disk⟩
    | ConvOutcome.ffmpegMissing => ⟨none, disk⟩

/-- A segment as returned by the ASR collaborator
(`model_loader.transcribe_longform`): a dict with `transcription` and
`boundaries` keys and no `speaker` key. -/
structure AsrSegment where
  transcription : String
  boundaries : ℚ × ℚ
deriving DecidableEq, Repr

/-- The outcome of the ASR collaborator call: a segment list, a `ValueError`
(the VAD branch), or any other exception. -/
inductive AsrOutcome
  | ok (utterances : List AsrSegment)
  | vadError (msg : String)
  | err (msg : String)
deriving DecidableEq, Repr

/-- The outcome of the pyannote diarization pipeline call inside
`DiarizationManager.diarize`: a raw turn list, or a raised exception. -/
inductive DiarOutcome
  | ok (turns : List SpeakerSegment)
  | throws (msg : String)
deriving DecidableEq, Repr

/-- Python's stable `segments.sort(key=lambda s: s.start)`. -/
def sortTurns (segments : List SpeakerSegment) : List SpeakerSegment :=
  segments.mergeSort (fun a b => decide (a.start ≤ b.start))

/-- `DiarizationManager.diarize`: run the pipeline (an oracle here), sort the
turns by start time, rename the speakers to ordinals; every exception is
re-raised as a `ValueError`. -/
def diarize (outcome : DiarOutcome) : Except String (List SpeakerSegment) :=
  match outcome with
  | DiarOutcome.ok turns => Except.ok (rename_speakers (sortTurns turns))
  | DiarOutcome.throws msg =>
      Except.error ("Ошибка при диаризации: " ++ msg)

/-- `TranscriptionProcessor._apply_diarization`: when the manager is
unavailable every segment gets the default label; otherwise `diarize` and
`map_speakers_to_transcription` run, and if `diarize` raises, segments
lacking a `speaker` key get the default label.  The function catches every
exception and never raises. -/
def apply_diarization (manager_available : Bool) (outcome : DiarOutcome)
    (utterances : List Utt) : List Utt :=
  if !manager_available then
    utterances.map fun utt => { utt with speaker := some "Спикер №1" }
  else
    match diarize outcome with
    | Except.ok speaker_segments =>
        map_speakers_to_transcription utterances speaker_segments
    | Except.error _ =>
        utterances.map fun utt =>
          if utt.speaker = none then { utt with speaker := some "Спикер №1" }
          else utt

/-- The log messages of `process_file` that the specification claims talk
about, as event tags (the full text of the other log lines embeds wall-clock
timings and is not modelled). -/
inductive LogEvent
  | conversionSkip
  | tokenError
  | vadErrorLogged
  | transcriptionErrorLogged
  | emptySegmentsWarning
deriving DecidableEq, Repr

/-- The files one entry of the `for fmt in output_formats` saving loop
writes, as (path, contents) pairs. -/
def save_format (fmt : String) (enable_diarization : Bool)
    (name_without_ext output_dir filename : String) (utterances : List Utt)
    (full_text : String) (timecoded_lines : List String)
    (full_text_diarized : String)
    (timecoded_lines_diarized : List String) : List (String × String) :=
  if fmt = "txt" then
    [(output_dir ++ "/" ++ name_without_ext ++ ".txt", full_text),
     (output_dir ++ "/" ++ name_without_ext ++ "_timecodes.txt",
       String.intercalate "\n" timecoded_lines)] ++
    (if enable_diarization && !isBlank full_text_diarized then
      [(output_dir ++ "/" ++ name_without_ext ++ "_diarize.txt",
         full_text_diarized),
       (output_dir ++ "/" ++ name_without_ext ++ "_diarize_timecodes.txt",
         String.intercalate "\n" timecoded_lines_diarized)]
     else [])
  else if fmt = "md" then
    [(output_dir ++ "/" ++ name_without_ext ++ ".md",
      generate_markdown utterances filename)]
  else if fmt = "srt" then
    [(output_dir ++ "/" ++ name_without_ext ++ ".srt",
      generate_srt utterances)]
  else if fmt = "vtt" then
    [(output_dir ++ "/" ++ name_without_ext ++ ".vtt",
      generate_vtt utterances)]
  else []

/-- The whole saving loop. -/
def save_files (output_formats : List String) (enable_diarization : Bool)
    (name_without_ext output_dir filename : String) (utterances : List Utt)
    (full_text : String) (timecoded_lines : List String)
    (full_text_diarized : String)
    (timecoded_lines_diarized : List String) : List (String × String) :=
  output_formats.flatMap fun fmt =>
    save_format fmt enable_diarization name_without_ext output_dir filename
      utterances full_text timecoded_lines full_text_diarized
      timecoded_lines_diarized

/-- The collaborator outcomes and options a `process_file` run depends on. -/
structure ProcInputs where
  input_exists : Bool
  conv : ConvOutcome
  hf_token_valid : Bool
  asr : AsrOutcome
  enable_diarization : Bool
  diar_available : Bool
  diar : DiarOutcome
  output_formats : Option (List String)
deriving Repr

/-- The observable result of one `process_file` run: the `success` flag of
the returned dict, the final `utterances` value, the files written to the
output directory, the final disk contents, and the claim-relevant log
events. -/
structure ProcResult where
  success : Bool
  utterances : List Utt
  saved_files : List (String × String)
  disk : List String
  log : List LogEvent
deriving Repr

/-- `TranscriptionProcessor.process_file`.  Control flow of the source:
conversion first (a null result returns failure immediately, before the
`try/finally`, so nothing deletes a partial temp file); then inside the
`try` the token check and the ASR call, whose error paths return failure
through the `finally` that deletes the temp WAV; then optional diarization
(never fatal); then rendering and saving; every post-conversion exit removes
the temp WAV from disk. -/
def process_file (inp : ProcInputs)
    (filename name_without_ext input_basename output_dir : String)
    (disk : List String) : ProcResult :=
  let conv := convert_to_wav inp.input_exists inp.conv input_basename
    output_dir disk
  match conv.temp_audio with
  | none =>
      { success := false, utterances := [], saved_files := [],
        disk := conv.disk, log := [LogEvent.conversionSkip] }
  | some temp_audio =>
      if !inp.hf_token_valid then
        { success := false, utterances := [], saved_files := [],
          disk := conv.disk.erase temp_audio, log := [LogEvent.tokenError] }
      else
        match inp.asr with
        | AsrOutcome.vadError _ =>
            { success := false, utterances := [], saved_files := [],
              disk := conv.disk.erase temp_audio,
              log := [LogEvent.vadErrorLogged] }
        | AsrOutcome.err _ =>
            { success := false, utterances := [], saved_files := [],
              disk := conv.disk.erase temp_audio,
              log := [LogEvent.transcriptionErrorLogged] }
        | AsrOutcome.ok asr_utts =>
            let utterances0 : List Utt := asr_utts.map fun a =>
              { transcription := a.transcription, boundaries := a.boundaries,
                speaker := none }
            let utterances :=
              if inp.enable_diarization && !utterances0.isEmpty then
                apply_diarization inp.diar_available inp.diar utterances0
              else utterances0
            let rendered :=
              if utterances.isEmpty then
                (("" : String), ([] : List String), ("" : String),
                  ([] : List String))
              else
                let lists := build_render_lists inp.enable_diarization
                  utterances none
                (String.intercalate "\n" lists.full_text_lines_plain,
                 lists.timecoded_lines_plain,
                 String.intercalate "\n" lists.full_text_lines_diarized,
                 lists.timecoded_lines_diarized)
            let output_formats := inp.output_formats.getD ["txt"]
            let saved := save_files output_formats inp.enable_diarization
              name_without_ext output_dir filename utterances
              rendered.1 rendered.2.1 rendered.2.2.1 rendered.2.2.2
            { success := true, utterances := utterances,
              saved_files := saved, disk := conv.disk.erase temp_audio,
              log := if utterances.isEmpty then
                  [LogEvent.emptySegmentsWarning]
                else [] }

/-- The status `process_transcription` (src/api.py) leaves in
`tasks_storage` once the executor returns: `result['success']` marks the
task completed; otherwise the raised exception is caught and the task is
marked failed. -/
def task_status_after (result_success : Bool) : String :=
  if result_success then "completed" else "failed"

/-! ### Task deletion (src/api.py: delete_task) -/

/-- The fields of a `tasks_storage` entry that `delete_task` consults (named
`TaskRecord` because `Task` is taken by the Lean core library). -/
structure TaskRecord where
  status : String
  filename : String
deriving DecidableEq, Repr

/-- The API state `delete_task` reads and writes: the in-process task dict
and the set of files on disk (uploads and results). -/
structure ApiState where
  tasks_storage : List (String × TaskRecord)
  disk : List String
deriving Repr

/-- `UPLOAD_DIR / f"{task_id}_{task['filename']}"`. -/
def uploadPath (task_id filename : String) : String :=
  "uploads/" ++ task_id ++ "_" ++ filename

/-- The directory prefix `shutil.rmtree` clears: `RESULTS_DIR / task_id`. -/
def resultDirPrefix (task_id : String) : String :=
  "results/" ++ task_id ++ "/"

/-- The HTTP outcome of `delete_task`: success, 404 (unknown id), or 400
(`"Нельзя удалить задачу в процессе обработки"`). -/
inductive DeleteOutcome
  | ok
  | notFound
  | badRequest
deriving DecidableEq, Repr

/-- `del tasks_storage[task_id]`. -/
def removeKey (l : List (String × TaskRecord)) (k : String) : List (String × TaskRecord) :=
  l.filter fun p => p.1 ≠ k

/-- `delete_task` (src/api.py): 404 for an unknown id; 400 with no state
change for a task whose status is `'processing'`; otherwise unlink the
upload, remove the result directory, and delete the record. -/
def delete_task (st : ApiState) (task_id : String) :
    DeleteOutcome × ApiState :=
  match st.tasks_storage.lookup task_id with
  | none => (DeleteOutcome.notFound, st)
  | some task =>
    if task.status = "processing" then (DeleteOutcome.badRequest, st)
    else
      (DeleteOutcome.ok,
        { tasks_storage := removeKey st.tasks_storage task_id,
          disk := (st.disk.erase (uploadPath task_id task.filename)).filter
            fun p => !(resultDirPrefix task_id).isPrefixOf p })

/-! ### Lemmas about the attribution primitives -/

/-- Whether a turn contains a time instant (`seg.start <= time <= seg.end`). -/
def containsTime (time : ℚ) (t : SpeakerSegment) : Prop :=
  t.start ≤ time ∧ time ≤ t.endTime

instance (time : ℚ) (t : SpeakerSegment) : Decidable (containsTime time t) :=
  inferInstanceAs (Decidable (_ ∧ _))

theorem find_speaker_at_time_eq_some {time : ℚ} {segs : List SpeakerSegment}
    {s : String} (h : find_speaker_at_time time segs = some s) :
    ∃ t ∈ segs, containsTime time t ∧ t.speaker = s := by
  induction segs with
  | nil => simp [find_speaker_at_time] at h
  | cons t rest ih =>
    rw [find_speaker_at_time] at h
    split at h
    · next hc => exact ⟨t, List.mem_cons_self t rest, hc, by injection h⟩
    · next hc =>
      obtain ⟨t', ht', h1, h2⟩ := ih h
      exact ⟨t', List.mem_cons_of_mem t ht', h1, h2⟩

theorem find_speaker_at_time_eq_none {time : ℚ} {segs : List SpeakerSegment}
    (h : find_speaker_at_time time segs = none) :
    ∀ t ∈ segs, ¬ containsTime time t := by
  induction segs with
  | nil => simp
  | cons t rest ih =>
    rw [find_speaker_at_time] at h
    split at h
    · exact absurd h (by simp)
    · next hc =>
      intro t' ht'
      rcases List.mem_cons.mp ht' with rfl | hmem
      · exact hc
      · exact ih h t' hmem

theorem find_speaker_at_time_of_contains {time : ℚ} {segs : List SpeakerSegment}
    {t : SpeakerSegment} (ht : t ∈ segs) (hc : containsTime time t) :
    ∃ s, find_speaker_at_time time segs = some s ∧
      ∃ t' ∈ segs, containsTime time t' ∧ t'.speaker = s := by
  cases h : find_speaker_at_time time segs with
  | none => exact absurd hc (find_speaker_at_time_eq_none h t ht)
  | some s => exact ⟨s, rfl, find_speaker_at_time_eq_some h⟩

theorem find_speaker_by_overlap_loop_spec (start endT : ℚ) :
    ∀ (l : List SpeakerSegment) (m : ℚ) (b : Option String),
      (find_speaker_by_overlap_loop start endT l m b = b ∧
        ∀ t ∈ l, overlapWith start endT t ≤ m) ∨
      (∃ t ∈ l, find_speaker_by_overlap_loop start endT l m b = some t.speaker ∧
        m < overlapWith start endT t ∧
        ∀ t' ∈ l, overlapWith start endT t' ≤ overlapWith start endT t) := by
  intro l
  induction l with
  | nil => intro m b; left; exact ⟨rfl, by simp⟩
  | cons t rest ih =>
    intro m b
    rw [find_speaker_by_overlap_loop]
    split
    · next hgt =>
      rcases ih (overlapWith start endT t) (some t.speaker) with
        ⟨heq, hle⟩ | ⟨t', ht', heq, hlt, hmax⟩
      · right
        refine ⟨t, List.mem_cons_self t rest, heq, hgt, fun t' ht' => ?_⟩
        rcases List.mem_cons.mp ht' with rfl | hmem
        · exact le_refl _
        · exact hle t' hmem
      · right
        refine ⟨t', List.mem_cons_of_mem t ht', heq, lt_trans hgt hlt,
          fun t'' ht'' => ?_⟩
        rcases List.mem_cons.mp ht'' with rfl | hmem
        · exact le_of_lt hlt
        · exact hmax t'' hmem
    · next hngt =>
      rcases ih m b with ⟨heq, hle⟩ | ⟨t', ht', heq, hlt, hmax⟩
      · left
        refine ⟨heq, fun t' ht' => ?_⟩
        rcases List.mem_cons.mp ht' with rfl | hmem
        · exact le_of_not_lt hngt
        · exact hle t' hmem
      · right
        refine ⟨t', List.mem_cons_of_mem t ht', heq, hlt, fun t'' ht'' => ?_⟩
        rcases List.mem_cons.mp ht'' with rfl | hmem
        · exact le_trans (le_of_not_lt hngt) (le_of_lt hlt)
        · exact hmax t'' hmem

theorem find_speaker_by_overlap_eq_some {start endT : ℚ}
    {segs : List SpeakerSegment} {s : String}
    (h : find_speaker_by_overlap start endT segs = some s) :
    ∃ t ∈ segs, 0 < overlapWith start endT t ∧ t.speaker = s ∧
      ∀ t' ∈ segs, overlapWith start endT t' ≤ overlapWith start endT t := by
  rcases find_speaker_by_overlap_loop_spec start endT segs 0 none with
    ⟨heq, _⟩ | ⟨t, ht, heq, hlt, hmax⟩
  · rw [find_speaker_by_overlap] at h; rw [heq] at h; exact absurd h (by simp)
  · rw [find_speaker_by_overlap] at h; rw [heq] at h
    exact ⟨t, ht, hlt, Option.some.inj h, hmax⟩

theorem find_speaker_by_overlap_eq_none {start endT : ℚ}
    {segs : List SpeakerSegment}
    (h : find_speaker_by_overlap start endT segs = none) :
    ∀ t ∈ segs, overlapWith start endT t ≤ 0 := by
  rcases find_speaker_by_overlap_loop_spec start endT segs 0 none with
    ⟨heq, hle⟩ | ⟨t, ht, heq, _, _⟩
  · exact fun t ht => hle t ht
  · rw [find_speaker_by_overlap] at h; rw [heq] at h; exact absurd h (by simp)

theorem speakerOrUnknown_some_ne {s : String} (h : s ≠ "") :
    speakerOrUnknown (some s) = s := by
  simp [speakerOrUnknown, h]

/-- C2 (amended).  For turn lists whose raw labels are all non-empty, the
attribution operation behaves as specified: midpoint containment first, then
largest strictly positive overlap, then the sentinel label; a segment fully
contained in a turn whose midpoint lies in no other turn gets that turn's
speaker; for a two-turn list, a segment overlapping both unequally whose
midpoint lies in neither gets the strictly-greater-overlap turn's speaker.
(The unamended claim fails because midpoint containment takes precedence over
a strictly larger overlap, and because an empty raw label is replaced by the
sentinel; see the counterexample.) -/
theorem C2_speaker_attribution :
    ∀ (turns : List SpeakerSegment), (∀ t ∈ turns, t.speaker ≠ "") →
    ∀ (uts : List Utt) (u : Utt),
      map_speakers_to_transcription uts turns = uts.map (assign_speaker turns) ∧
      ((∃ t ∈ turns, containsTime ((u.boundaries.1 + u.boundaries.2) / 2) t) →
        ∃ t ∈ turns, containsTime ((u.boundaries.1 + u.boundaries.2) / 2) t ∧
          (assign_speaker turns u).speaker = some t.speaker) ∧
      ((¬ ∃ t ∈ turns, containsTime ((u.boundaries.1 + u.boundaries.2) / 2) t) →
       (∃ t ∈ turns, 0 < overlapWith u.boundaries.1 u.boundaries.2 t) →
        ∃ t ∈ turns, 0 < overlapWith u.boundaries.1 u.boundaries.2 t ∧
          (∀ t' ∈ turns, overlapWith u.boundaries.1 u.boundaries.2 t' ≤
            overlapWith u.boundaries.1 u.boundaries.2 t) ∧
          (assign_speaker turns u).speaker = some t.speaker) ∧
      ((¬ ∃ t ∈ turns, containsTime ((u.boundaries.1 + u.boundaries.2) / 2) t) →
       (¬ ∃ t ∈ turns, 0 < overlapWith u.boundaries.1 u.boundaries.2 t) →
        (assign_speaker turns u).speaker = some "Неизвестный спикер") ∧
      (∀ t ∈ turns, u.boundaries.1 ≤ u.boundaries.2 →
        t.start ≤ u.boundaries.1 → u.boundaries.2 ≤ t.endTime →
        (∀ t' ∈ turns, t' ≠ t →
          ¬ containsTime ((u.boundaries.1 + u.boundaries.2) / 2) t') →
        (assign_speaker turns u).speaker = some t.speaker) ∧
      (∀ t t', (turns = [t, t'] ∨ turns = [t', t]) →
        ¬ containsTime ((u.boundaries.1 + u.boundaries.2) / 2) t →
        ¬ containsTime ((u.boundaries.1 + u.boundaries.2) / 2) t' →
        0 < overlapWith u.boundaries.1 u.boundaries.2 t' →
        overlapWith u.boundaries.1 u.boundaries.2 t' <
          overlapWith u.boundaries.1 u.boundaries.2 t →
        (assign_speaker turns u).speaker = some t.speaker) := by
  intro turns hne uts u
  refine ⟨rfl, ?_, ?_, ?_, ?_, ?_⟩
  · rintro ⟨t, ht, hc⟩
    obtain ⟨s, hfind, t0, ht0, hc0, hs0⟩ := find_speaker_at_time_of_contains ht hc
    refine ⟨t0, ht0, hc0, ?_⟩
    simp [assign_speaker, hfind, speakerOrUnknown_some_ne (hs0 ▸ hne t0 ht0), hs0]
  · intro hno hex
    have hnone : find_speaker_at_time ((u.boundaries.1 + u.boundaries.2) / 2)
        turns = none := by
      cases h : find_speaker_at_time ((u.boundaries.1 + u.boundaries.2) / 2)
          turns with
      | none => rfl
      | some s =>
          obtain ⟨t, ht, hc, _⟩ := find_speaker_at_time_eq_some h
          exact absurd ⟨t, ht, hc⟩ hno
    cases hov : find_speaker_by_overlap u.boundaries.1 u.boundaries.2 turns with
    | none =>
        obtain ⟨t, ht, hpos⟩ := hex
        exact absurd hpos
          (not_lt.mpr (find_speaker_by_overlap_eq_none hov t ht))
    | some s =>
        obtain ⟨t, ht, hpos, hs, hmax⟩ := find_speaker_by_overlap_eq_some hov
        refine ⟨t, ht, hpos, hmax, ?_⟩
        simp [assign_speaker, hnone, hov,
          speakerOrUnknown_some_ne (hs ▸ hne t ht), hs]
  · intro hno hnov
    have hnone : find_speaker_at_time ((u.boundaries.1 + u.boundaries.2) / 2)
        turns = none := by
      cases h : find_speaker_at_time ((u.boundaries.1 + u.boundaries.2) / 2)
          turns with
      | none => rfl
      | some s =>
          obtain ⟨t, ht, hc, _⟩ := find_speaker_at_time_eq_some h
          exact absurd ⟨t, ht, hc⟩ hno
    cases hov : find_speaker_by_overlap u.boundaries.1 u.boundaries.2 turns with
    | none => simp [assign_speaker, hnone, hov, speakerOrUnknown]
    | some s =>
        obtain ⟨t, ht, hpos, _, _⟩ := find_speaker_by_overlap_eq_some hov
        exact absurd ⟨t, ht, hpos⟩ hnov
  · intro t ht hse hst hte huniq
    have hc : containsTime ((u.boundaries.1 + u.boundaries.2) / 2) t := by
      constructor
      · have : u.boundaries.1 ≤ (u.boundaries.1 + u.boundaries.2) / 2 := by
          linarith
        linarith
      · have : (u.boundaries.1 + u.boundaries.2) / 2 ≤ u.boundaries.2 := by
          linarith
        linarith
    obtain ⟨s, hfind, t0, ht0, hc0, hs0⟩ := find_speaker_at_time_of_contains ht hc
    have ht0t : t0 = t := by
      by_contra h'
      exact huniq t0 ht0 h' hc0
    subst ht0t
    simp [assign_speaker, hfind, speakerOrUnknown_some_ne (hs0 ▸ hne t0 ht0), hs0]
  · intro t t' hcase hnc hnc' hpos hlt
    have hmem_t : t ∈ turns := by rcases hcase with rfl | rfl <;> simp
    have hmem : ∀ tt ∈ turns, tt = t ∨ tt = t' := by
      intro tt htt
      rcases hcase with rfl | rfl
      · simpa using htt
      · rcases (by simpa using htt : tt = t' ∨ tt = t) with h | h
        · exact Or.inr h
        · exact Or.inl h
    have hno : ¬ ∃ tt ∈ turns, containsTime
        ((u.boundaries.1 + u.boundaries.2) / 2) tt := by
      rintro ⟨tt, htt, hctt⟩
      rcases hmem tt htt with rfl | rfl
      · exact hnc hctt
      · exact hnc' hctt
    have hnone : find_speaker_at_time ((u.boundaries.1 + u.boundaries.2) / 2)
        turns = none := by
      cases h : find_speaker_at_time ((u.boundaries.1 + u.boundaries.2) / 2)
          turns with
      | none => rfl
      | some s =>
          obtain ⟨tt, htt, hctt, _⟩ := find_speaker_at_time_eq_some h
          exact absurd ⟨tt, htt, hctt⟩ hno
    cases hov : find_speaker_by_overlap u.boundaries.1 u.boundaries.2 turns with
    | none =>
        have := find_speaker_by_overlap_eq_none hov t hmem_t
        exact absurd (lt_trans hpos hlt) (not_lt.mpr this)
    | some s =>
        obtain ⟨tm, htm, hposm, hsm, hmaxm⟩ := find_speaker_by_overlap_eq_some hov
        have htmt : tm = t := by
          rcases hmem tm htm with rfl | rfl
          · rfl
          · exact absurd hlt (not_lt.mpr (hmaxm t hmem_t))
        subst htmt
        simp [assign_speaker, hnone, hov,
          speakerOrUnknown_some_ne (hsm ▸ hne tm htm), hsm]

/-- C2, counterexample to the claim as stated.  First scenario: the segment
`[19/5, 33/5]` overlaps turn `A = [0,5]` by `6/5` and turn `B = [5,6]` by `1`
(unequal, `A` strictly greater), yet its midpoint `26/5` lies inside `B`, so
the code assigns `B`, not the strictly-greater-overlap speaker `A`.  Second
scenario: the only turn contains the segment's midpoint but carries the empty
raw label, and the code assigns the sentinel instead of that turn's
speaker. -/
theorem C2_counterexample :
    (map_speakers_to_transcription
        [⟨"привет", ((19 : ℚ)/5, (33 : ℚ)/5), none⟩]
        [⟨0, 5, "A"⟩, ⟨5, 6, "B"⟩]).map Utt.speaker = [some "B"] ∧
    overlapWith ((19 : ℚ)/5) ((33 : ℚ)/5) ⟨5, 6, "B"⟩ <
      overlapWith ((19 : ℚ)/5) ((33 : ℚ)/5) ⟨0, 5, "A"⟩ ∧
    0 < overlapWith ((19 : ℚ)/5) ((33 : ℚ)/5) ⟨5, 6, "B"⟩ ∧
    (some "B" : Option String) ≠ some "A" ∧
    (map_speakers_to_transcription [⟨"x", ((2 : ℚ), (4 : ℚ)), none⟩]
        [⟨0, 10, ""⟩]).map Utt.speaker = [some "Неизвестный спикер"] ∧
    containsTime (((2 : ℚ) + 4) / 2) ⟨0, 10, ""⟩ ∧
    ("Неизвестный спикер" : String) ≠ "" := by
  refine ⟨?_, ?_, ?_, by decide, ?_, ?_, by decide⟩
  · norm_num [map_speakers_to_transcription, assign_speaker,
      find_speaker_at_time, find_speaker_by_overlap,
      find_speaker_by_overlap_loop, overlapWith, speakerOrUnknown]
    intro h
    exact absurd h (by decide)
  · norm_num [overlapWith]
  · norm_num [overlapWith]
  · norm_num [map_speakers_to_transcription, assign_speaker,
      find_speaker_at_time, find_speaker_by_overlap,
      find_speaker_by_overlap_loop, overlapWith, speakerOrUnknown]
  · norm_num [containsTime]

/-! ### Lemmas about speaker relabelling -/

theorem firstAppear_nil : firstAppear [] = [] := by
  rw [firstAppear]

theorem firstAppear_cons (s : String) (rest : List String) :
    firstAppear (s :: rest) = s :: firstAppear (rest.filter (fun x => x ≠ s)) := by
  rw [firstAppear]

theorem filter_notmem_append (l acc : List String) (sp : String) :
    l.filter (fun x => x ∉ acc ++ [sp]) =
      (l.filter (fun x => x ∉ acc)).filter (fun x => x ≠ sp) := by
  rw [List.filter_filter]
  apply List.filter_congr
  intro x _
  by_cases h1 : x ∈ acc <;> by_cases h2 : x = sp <;>
    simp [h1, h2, List.mem_append]

theorem speaker_order_loop_eq (segs : List SpeakerSegment) :
    ∀ acc : List String, speaker_order_loop segs acc =
      acc ++ firstAppear
        ((segs.map SpeakerSegment.speaker).filter (fun x => x ∉ acc)) := by
  induction segs with
  | nil => intro acc; simp [speaker_order_loop, firstAppear_nil]
  | cons seg rest ih =>
    intro acc
    rw [speaker_order_loop]
    by_cases hmem : seg.speaker ∈ acc
    · rw [if_pos hmem, ih acc]
      simp [List.filter_cons, hmem]
    · rw [if_neg hmem, ih (acc ++ [seg.speaker])]
      rw [filter_notmem_append]
      have hkeep : (List.map SpeakerSegment.speaker (seg :: rest)).filter
          (fun x => x ∉ acc) =
          seg.speaker :: (List.map SpeakerSegment.speaker rest).filter
            (fun x => x ∉ acc) := by
        simp [List.filter_cons, hmem]
      rw [hkeep, firstAppear_cons]
      simp

theorem speaker_order_eq_firstAppear (segs : List SpeakerSegment) :
    speaker_order segs = firstAppear (segs.map SpeakerSegment.speaker) := by
  rw [speaker_order, speaker_order_loop_eq segs []]
  simp

theorem mem_firstAppear (l : List String) (x : String) :
    x ∈ firstAppear l ↔ x ∈ l := by
  induction l using firstAppear.induct with
  | case1 => simp [firstAppear_nil]
  | case2 s rest ih =>
    rw [firstAppear_cons]
    simp only [List.mem_cons]
    constructor
    · rintro (rfl | hx)
      · exact Or.inl rfl
      · exact Or.inr (List.mem_of_mem_filter (ih.mp hx))
    · rintro (rfl | hx)
      · exact Or.inl rfl
      · by_cases hxs : x = s
        · exact Or.inl hxs
        · exact Or.inr (ih.mpr (List.mem_filter.mpr ⟨hx, by simp [hxs]⟩))

theorem firstAppear_nodup (l : List String) : (firstAppear l).Nodup := by
  induction l using firstAppear.induct with
  | case1 => simp [firstAppear_nil]
  | case2 s rest ih =>
    rw [firstAppear_cons]
    refine List.nodup_cons.mpr ⟨?_, ih⟩
    intro hmem
    have := List.of_mem_filter ((mem_firstAppear _ _).mp hmem)
    simp at this

/-- C3: raw speaker ids are relabelled to stable ordinals in order of first
appearance in the turn list.  The relabelling is a single map `f` over raw
ids (so the same raw id always receives the same ordinal, and the transcript
segments play no role), and `f` sends the id whose first appearance is `k`-th
(position `k` of `firstAppear`) to the label of ordinal `k+1`.  The turn list
with raw ids `[A, B, A, C]` relabels to ordinals `1, 2, 1, 3`. -/
theorem C3_stable_ordinals :
    (∀ segments : List SpeakerSegment,
      ∃ f : String → String,
        rename_speakers segments =
          segments.map (fun seg => { seg with speaker := f seg.speaker }) ∧
        ∀ k (hk : k < (firstAppear (segments.map SpeakerSegment.speaker)).length),
          f ((firstAppear (segments.map SpeakerSegment.speaker)).get ⟨k, hk⟩) =
            speakerLabel k) ∧
    rename_speakers
        [⟨0, 1, "A"⟩, ⟨1, 2, "B"⟩, ⟨2, 3, "A"⟩, ⟨3, 4, "C"⟩] =
      [⟨0, 1, speakerLabel 0⟩, ⟨1, 2, speakerLabel 1⟩,
       ⟨2, 3, speakerLabel 0⟩, ⟨3, 4, speakerLabel 2⟩] := by
  constructor
  · intro segments
    refine ⟨speaker_relabel segments, rfl, ?_⟩
    intro k hk
    have horder := speaker_order_eq_firstAppear segments
    have hmem : (firstAppear (segments.map SpeakerSegment.speaker)).get ⟨k, hk⟩ ∈
        speaker_order segments := by
      rw [horder]
      exact List.get_mem _ k hk
    rw [speaker_relabel, if_pos hmem, horder]
    congr 1
    have h1 := List.indexOf_getElem
      (firstAppear_nodup (segments.map SpeakerSegment.speaker)) k hk
    simpa [List.get_eq_getElem] using h1
  · rfl

/-- A closed instance of `C3_stable_ordinals`: for the turn list with raw ids
`[A, B, A, C]`, the relabelling map sends the first-appearing id to the first
ordinal label. -/
theorem C3_witness :
    ∃ f : String → String,
      rename_speakers
          ([⟨0, 1, "A"⟩, ⟨1, 2, "B"⟩, ⟨2, 3, "A"⟩, ⟨3, 4, "C"⟩] :
            List SpeakerSegment) =
        List.map (fun seg => { seg with speaker := f seg.speaker })
          ([⟨0, 1, "A"⟩, ⟨1, 2, "B"⟩, ⟨2, 3, "A"⟩, ⟨3, 4, "C"⟩] :
            List SpeakerSegment) ∧
      ∀ k (hk : k < (firstAppear (List.map SpeakerSegment.speaker
          ([⟨0, 1, "A"⟩, ⟨1, 2, "B"⟩, ⟨2, 3, "A"⟩, ⟨3, 4, "C"⟩] :
            List SpeakerSegment))).length),
        f ((firstAppear (List.map SpeakerSegment.speaker
            ([⟨0, 1, "A"⟩, ⟨1, 2, "B"⟩, ⟨2, 3, "A"⟩, ⟨3, 4, "C"⟩] :
              List SpeakerSegment))).get ⟨k, hk⟩) =
          speakerLabel k :=
  C3_stable_ordinals.1 [⟨0, 1, "A"⟩, ⟨1, 2, "B"⟩, ⟨2, 3, "A"⟩, ⟨3, 4, "C"⟩]

/-- A closed instance of `C2_speaker_attribution`: a segment `[1,2]` whose
midpoint lies inside the single turn `[0,5]` of speaker `A` is assigned the
speaker of a midpoint-containing turn. -/
theorem C2_witness :
    ∃ t ∈ ([⟨0, 5, "A"⟩] : List SpeakerSegment),
      containsTime (((1 : ℚ) + 2) / 2) t ∧
      (assign_speaker [⟨0, 5, "A"⟩] ⟨"т", (1, 2), none⟩).speaker =
        some t.speaker :=
  (C2_speaker_attribution [⟨0, 5, "A"⟩]
      (by intro t ht; simp at ht; subst ht; decide)
      [⟨"т", (1, 2), none⟩] ⟨"т", (1, 2), none⟩).2.1
    ⟨⟨0, 5, "A"⟩, by simp, by norm_num [containsTime]⟩

/-! ### Lemmas about the progress estimator -/

theorem lookup_map_self {β : Type} (l : List String) (f : String → β)
    (x : String) :
    (l.map fun e => (e, f e)).lookup x = if x ∈ l then some (f x) else none := by
  induction l with
  | nil => simp
  | cons a l ih =>
    by_cases hxa : x = a
    · subst hxa
      simp [List.lookup]
    · have hbeq : (x == a) = false := beq_eq_false_iff_ne.mpr hxa
      simp [List.lookup, hbeq, ih, hxa, List.mem_cons]

theorem update_summary_history (st : Stats) :
    (update_summary st).history = st.history := by
  simp only [update_summary]
  split
  · rfl
  · split
    · rfl
    · rfl

theorem update_summary_summary (h : List Record)
    (old : List (String × ExtSummary)) (r : Record)
    (hold : old = computedSummary h) :
    (update_summary ⟨h ++ [r], old⟩).summary = computedSummary (h ++ [r]) := by
  have hne : h ++ [r] ≠ [] := by simp
  simp only [update_summary, computedSummary]
  rw [if_neg hne]
  by_cases hs : (h ++ [r]).filter Record.success = []
  · rw [if_pos hs, if_pos hs]
    have hsh : h.filter Record.success = [] := by
      rw [List.filter_append] at hs
      exact List.append_eq_nil.mp hs |>.1
    rw [hold]
    simp only [computedSummary]
    rw [if_pos hsh]
  · rw [if_neg hs, if_neg hs]

theorem summary_inv {st : Stats} (h : ReachableStats st) :
    st.summary = computedSummary st.history := by
  induction h with
  | init => simp [computedSummary]
  | add st ext d c t s hreach ih =>
    rw [add_processing_record, update_summary_history]
    exact update_summary_summary st.history st.summary _ ih

theorem mem_groupExts {successful : List Record} {x : String} :
    x ∈ groupExts successful ↔ ∃ r ∈ successful, r.file_extension = x := by
  rw [groupExts, mem_firstAppear]
  simp

theorem computedSummary_lookup_some {history : List Record} {ext : String}
    (hex : ∃ r ∈ history, r.success = true ∧ r.file_extension = ext) :
    (computedSummary history).lookup ext =
      some (summarize ((history.filter Record.success).filter
        (fun r => r.file_extension = ext))) := by
  obtain ⟨r, hr, hs, hext⟩ := hex
  have hrs : r ∈ history.filter Record.success := List.mem_filter.mpr ⟨hr, hs⟩
  have hne : history.filter Record.success ≠ [] := by
    intro h0
    rw [h0] at hrs
    simp at hrs
  simp only [computedSummary]
  rw [if_neg hne, lookup_map_self, if_pos (mem_groupExts.mpr ⟨r, hrs, hext⟩)]

theorem computedSummary_lookup_none {history : List Record} {ext : String}
    (hnex : ¬ ∃ r ∈ history, r.success = true ∧ r.file_extension = ext) :
    (computedSummary history).lookup ext = none := by
  simp only [computedSummary]
  by_cases hs : history.filter Record.success = []
  · rw [if_pos hs]
    simp
  · rw [if_neg hs, lookup_map_self, if_neg]
    intro hmem
    obtain ⟨r, hrs, hext⟩ := mem_groupExts.mp hmem
    have hm := List.mem_filter.mp hrs
    exact hnex ⟨r, hm.1, hm.2, hext⟩

theorem filterMap_ratios (l : List Record)
    (h : ∀ r ∈ l, 0 < r.total_duration) :
    (l.filterMap fun r =>
      if 0 < r.total_duration then
        some ((r.conversion_time + r.transcription_time) / r.total_duration)
      else none) =
    l.map fun r => (r.conversion_time + r.transcription_time) /
      r.total_duration := by
  induction l with
  | nil => rfl
  | cons a l ih =>
    simp only [List.filterMap_cons, List.map_cons,
      if_pos (h a (List.mem_cons_self a l))]
    rw [ih fun r hr => h r (List.mem_cons_of_mem a hr)]

/-- C4: estimation precedence for positive media durations on reachable
statistics states: (1) with at least one successful record for the file's
extension, the estimate is duration times the stored per-extension average
processing ratio; (2) otherwise, with a successful record of positive stored
duration, duration times the global average per-record ratio; (3) with no
successful record at all, duration times `0.5`; each branch floored at `5`
seconds.  One `.mp3` record of 100s media and 10s+30s processing makes a
200s `.mp3` estimate exactly 80s, and 60s with no history estimates 30s. -/
theorem C4_estimation_precedence :
    (∀ st : Stats, ReachableStats st → ∀ ext : String, ∀ d : ℚ, 0 < d →
      ((∃ r ∈ st.history, r.success = true ∧ r.file_extension = ext) →
        estimate_processing_time st ext d =
          max (d * ext_processing_ratio st.history ext) 5) ∧
      ((¬ ∃ r ∈ st.history, r.success = true ∧ r.file_extension = ext) →
       (∃ r ∈ st.history, r.success = true ∧ 0 < r.total_duration) →
        estimate_processing_time st ext d =
          max (d * global_avg_ratio st.history) 5) ∧
      ((¬ ∃ r ∈ st.history, r.success = true) →
        estimate_processing_time st ext d = max (d * (1/2)) 5)) ∧
    estimate_processing_time
        (add_processing_record ⟨[], []⟩ ".mp3" 100 10 30 true) ".mp3" 200 =
      80 ∧
    estimate_processing_time ⟨[], []⟩ ".wav" 60 = 30 := by
  refine ⟨?_, ?_, ?_⟩
  · intro st hreach ext d hd
    have hsum := summary_inv hreach
    refine ⟨?_, ?_, ?_⟩
    · intro hex
      rw [estimate_processing_time, if_neg (not_le.mpr hd), hsum,
        computedSummary_lookup_some hex]
      rfl
    · intro hnex hex
      simp only [estimate_processing_time, hsum,
        computedSummary_lookup_none hnex, if_neg (not_le.mpr hd)]
      obtain ⟨r, hr, hs, hdur⟩ := hex
      have hrm : r ∈ st.history.filter
          (fun r => r.success && decide (0 < r.total_duration)) :=
        List.mem_filter.mpr ⟨hr, by simp [hs, hdur]⟩
      have hane : st.history.filter
          (fun r => r.success && decide (0 < r.total_duration)) ≠ [] := by
        intro h0
        rw [h0] at hrm
        simp at hrm
      have hpos : ∀ r' ∈ st.history.filter
          (fun r => r.success && decide (0 < r.total_duration)),
          0 < r'.total_duration := by
        intro r' hr'
        have hp := (List.mem_filter.mp hr').2
        simp only [Bool.and_eq_true, decide_eq_true_eq] at hp
        exact hp.2
      rw [if_pos hane, filterMap_ratios _ hpos, if_pos (by simpa using hane)]
      rfl
    · intro hnall
      have hnex : ¬ ∃ r ∈ st.history, r.success = true ∧
          r.file_extension = ext :=
        fun ⟨r, hr, hs, _⟩ => hnall ⟨r, hr, hs⟩
      simp only [estimate_processing_time, hsum,
        computedSummary_lookup_none hnex, if_neg (not_le.mpr hd)]
      have hempty : st.history.filter
          (fun r => r.success && decide (0 < r.total_duration)) = [] := by
        rw [List.filter_eq_nil_iff]
        intro r hr
        simp only [Bool.and_eq_true, decide_eq_true_eq, not_and]
        intro hs _
        exact hnall ⟨r, hr, hs⟩
      rw [if_neg (by simp [hempty])]
  · norm_num [add_processing_record, update_summary, estimate_processing_time,
      summarize, pyRound, roundHalfEven, groupExts, firstAppear_cons,
      firstAppear_nil, List.lookup]
  · norm_num [estimate_processing_time, List.lookup]

/-- A closed instance of `C4_estimation_precedence`: the per-extension branch
applied to the state holding exactly the one `.mp3` record. -/
theorem C4_witness :
    estimate_processing_time
        (add_processing_record ⟨[], []⟩ ".mp3" 100 10 30 true) ".mp3" 200 =
      max (200 * ext_processing_ratio
        (add_processing_record ⟨[], []⟩ ".mp3" 100 10 30 true).history
        ".mp3") 5 :=
  (C4_estimation_precedence.1
      (add_processing_record ⟨[], []⟩ ".mp3" 100 10 30 true)
      (ReachableStats.add _ _ _ _ _ _ ReachableStats.init) ".mp3" 200
      (by norm_num)).1
    (by
      refine ⟨⟨".mp3", pyRound 100 2, pyRound 10 2, pyRound 30 2, true⟩,
        ?_, rfl, rfl⟩
      rw [add_processing_record, update_summary_history]
      simp)

/-- C10: a non-positive probed media duration (the duration probe reports 0
on failure) short-circuits `estimate_processing_time` to exactly 30 seconds,
for every statistics state and extension, before any ratio, fallback or
5-second floor is consulted. -/
theorem C10_zero_duration_estimate :
    ∀ (st : Stats) (file_ext : String) (media_duration : ℚ),
      media_duration ≤ 0 →
      estimate_processing_time st file_ext media_duration = 30 := by
  intro st fe d hd
  rw [estimate_processing_time, if_pos hd]

/-- A closed instance of `C10_zero_duration_estimate` at duration `0`. -/
theorem C10_witness : estimate_processing_time ⟨[], []⟩ ".mp3" 0 = 30 :=
  C10_zero_duration_estimate ⟨[], []⟩ ".mp3" 0 (by norm_num)

/-! ### Lemmas about admission control -/

theorem sem_reachable_invariant {N : ℕ} {s : SemState}
    (h : SemReachable N s) : s.permits + s.running = N := by
  induction h with
  | init => rfl
  | step hr hs ih =>
    cases hs with
    | submit => simpa using ih
    | acquire hw hp =>
        simp only at ih ⊢
        omega
    | release hrun =>
        simp only at ih ⊢
        omega

/-- C1: in every state reachable from startup, at most `N` jobs are inside
the `async with processing_semaphore` block of `process_transcription`, i.e.
at most `N` jobs simultaneously execute the pipeline beyond the pending
state.  Entering the block consumes one of the `N` permits of
`asyncio.Semaphore(MAX_CONCURRENT_TASKS)`, and leaving it on any exit path —
success, failure or exception — releases the permit, which is what the
`release` transition (the only way out of `running`) models. -/
theorem C1_bounded_concurrency :
    ∀ (N : ℕ) (s : SemState), SemReachable N s → s.running ≤ N := by
  intro N s h
  have hinv := sem_reachable_invariant h
  omega

/-- A closed instance of `C1_bounded_concurrency`: with one permit, the state
after one submission and one admission has one running job, within bound. -/
theorem C1_witness :
    SemReachable 1 ⟨0, 1, 0, 0⟩ ∧ (⟨0, 1, 0, 0⟩ : SemState).running ≤ 1 := by
  have h1 : SemReachable 1 ⟨1, 0, 1, 0⟩ :=
    SemReachable.step SemReachable.init (SemStep.submit _)
  have h2 : SemReachable 1 ⟨0, 1, 0, 0⟩ :=
    SemReachable.step h1
      (SemStep.acquire ⟨1, 0, 1, 0⟩ (by norm_num) (by norm_num))
  exact ⟨h2, C1_bounded_concurrency 1 _ h2⟩

/-! ### Lemmas about task deletion -/

theorem lookup_removeKey (l : List (String × TaskRecord)) (k : String) :
    (removeKey l k).lookup k = none := by
  induction l with
  | nil => rfl
  | cons p l ih =>
    by_cases h : p.1 = k
    · have hcons : removeKey (p :: l) k = removeKey l k := by
        simp [removeKey, List.filter_cons, h]
      rw [hcons]
      exact ih
    · have hcons : removeKey (p :: l) k = p :: removeKey l k := by
        simp [removeKey, List.filter_cons, h]
      rw [hcons, List.lookup]
      have hbeq : (k == p.1) = false := beq_eq_false_iff_ne.mpr (Ne.symm h)
      simp [hbeq, ih]

/-- C8: deleting a task in the in-flight `'processing'` (Transcribing) state
is rejected with HTTP 400 and the state — task record, uploaded file, result
directory — is returned unchanged; an unknown id gets 404 with no change;
for a task in any other state the delete succeeds, the record disappears,
the uploaded file is gone from disk and no file under the task's result
directory remains. -/
theorem C8_delete_rules :
    ∀ (st : ApiState) (task_id : String),
      (∀ task, st.tasks_storage.lookup task_id = some task →
        task.status = "processing" →
        delete_task st task_id = (DeleteOutcome.badRequest, st)) ∧
      (st.tasks_storage.lookup task_id = none →
        delete_task st task_id = (DeleteOutcome.notFound, st)) ∧
      (∀ task, st.tasks_storage.lookup task_id = some task →
        task.status ≠ "processing" → st.disk.Nodup →
        (delete_task st task_id).1 = DeleteOutcome.ok ∧
        (delete_task st task_id).2.tasks_storage.lookup task_id = none ∧
        uploadPath task_id task.filename ∉ (delete_task st task_id).2.disk ∧
        ∀ p ∈ (delete_task st task_id).2.disk,
          ¬ ((resultDirPrefix task_id).isPrefixOf p = true)) := by
  intro st task_id
  refine ⟨?_, ?_, ?_⟩
  · intro task hl hs
    simp only [delete_task, hl]
    rw [if_pos hs]
  · intro hl
    simp only [delete_task, hl]
  · intro task hl hs hnodup
    simp only [delete_task, hl]
    rw [if_neg hs]
    refine ⟨rfl, lookup_removeKey _ _, ?_, ?_⟩
    · intro hmem
      have hmem2 := List.mem_of_mem_filter hmem
      exact (List.Nodup.mem_erase_iff hnodup).mp hmem2 |>.1 rfl
    · intro p hp
      have := List.of_mem_filter hp
      simp only [Bool.not_eq_true'] at this
      simp [this]

/-- A closed instance of `C8_delete_rules`: deleting the one `'processing'`
task is rejected and the state is unchanged. -/
theorem C8_witness :
    delete_task
        ⟨[("t1", ⟨"processing", "a.mp3"⟩)], ["uploads/t1_a.mp3"]⟩ "t1" =
      (DeleteOutcome.badRequest,
        ⟨[("t1", ⟨"processing", "a.mp3"⟩)], ["uploads/t1_a.mp3"]⟩) :=
  (C8_delete_rules
      ⟨[("t1", ⟨"processing", "a.mp3"⟩)], ["uploads/t1_a.mp3"]⟩ "t1").1
    ⟨"processing", "a.mp3"⟩ (by simp [List.lookup]) rfl

/-! ### Lemmas about the renderers -/

theorem build_render_lists_filter (e : Bool) (utterances : List Utt) :
    ∀ cur, build_render_lists e utterances cur =
      build_render_lists e
        (utterances.filter fun u => !isBlank u.transcription) cur := by
  induction utterances with
  | nil => intro cur; rfl
  | cons u rest ih =>
    intro cur
    cases hb : isBlank u.transcription
    · have hfil : (u :: rest).filter (fun u => !isBlank u.transcription) =
          u :: rest.filter (fun u => !isBlank u.transcription) := by
        simp [List.filter_cons, hb]
      rw [hfil]
      simp only [build_render_lists, hb, Bool.false_eq_true, if_false]
      cases hsp : e && optTruthy u.speaker <;> simp [hsp, ih]
    · have hfil : (u :: rest).filter (fun u => !isBlank u.transcription) =
          rest.filter (fun u => !isBlank u.transcription) := by
        simp [List.filter_cons, hb]
      rw [hfil]
      rw [build_render_lists, if_pos hb]
      exact ih cur

theorem generate_srt_lines_filter (utterances : List Utt) :
    ∀ index, generate_srt_lines index utterances =
      generate_srt_lines index
        (utterances.filter fun u => !isBlank u.transcription) := by
  induction utterances with
  | nil => intro i; rfl
  | cons u rest ih =>
    intro i
    cases hb : isBlank u.transcription
    · have hfil : (u :: rest).filter (fun u => !isBlank u.transcription) =
          u :: rest.filter (fun u => !isBlank u.transcription) := by
        simp [List.filter_cons, hb]
      rw [hfil]
      simp only [generate_srt_lines, hb, Bool.false_eq_true, if_false]
      rw [ih (i + 1)]
    · have hfil : (u :: rest).filter (fun u => !isBlank u.transcription) =
          rest.filter (fun u => !isBlank u.transcription) := by
        simp [List.filter_cons, hb]
      rw [hfil]
      rw [generate_srt_lines, if_pos hb]
      exact ih i

theorem generate_vtt_lines_filter (utterances : List Utt) :
    generate_vtt_lines utterances =
      generate_vtt_lines
        (utterances.filter fun u => !isBlank u.transcription) := by
  induction utterances with
  | nil => rfl
  | cons u rest ih =>
    cases hb : isBlank u.transcription
    · have hfil : (u :: rest).filter (fun u => !isBlank u.transcription) =
          u :: rest.filter (fun u => !isBlank u.transcription) := by
        simp [List.filter_cons, hb]
      rw [hfil]
      simp only [generate_vtt_lines, hb, Bool.false_eq_true, if_false]
      rw [ih]
    · have hfil : (u :: rest).filter (fun u => !isBlank u.transcription) =
          rest.filter (fun u => !isBlank u.transcription) := by
        simp [List.filter_cons, hb]
      rw [hfil]
      rw [generate_vtt_lines, if_pos hb]
      exact ih

theorem generate_md_lines_filter (utterances : List Utt) :
    ∀ cur, generate_md_lines utterances cur =
      generate_md_lines
        (utterances.filter fun u => !isBlank u.transcription) cur := by
  induction utterances with
  | nil => intro cur; rfl
  | cons u rest ih =>
    intro cur
    cases hb : isBlank u.transcription
    · have hfil : (u :: rest).filter (fun u => !isBlank u.transcription) =
          u :: rest.filter (fun u => !isBlank u.transcription) := by
        simp [List.filter_cons, hb]
      rw [hfil]
      simp only [generate_md_lines, hb, Bool.false_eq_true, if_false]
      cases hsp : optTruthy u.speaker <;> simp [hsp, ih]
    · have hfil : (u :: rest).filter (fun u => !isBlank u.transcription) =
          rest.filter (fun u => !isBlank u.transcription) := by
        simp [List.filter_cons, hb]
      rw [hfil]
      rw [generate_md_lines, if_pos hb]
      exact ih cur

/-- C9: segments whose text is empty or whitespace-only contribute nothing
to any rendered output: the rendering loop (plain text lines, timecoded
lines, both diarized variants), the SRT generator at any running 1-based
index, the final SRT and VTT strings, and the Markdown output are all
unchanged when such segments are removed beforehand — so they produce no
lines, no subtitle blocks, and do not advance the SRT index. -/
theorem C9_blank_segments_skipped :
    ∀ (utterances : List Utt) (enable_diarization : Bool)
      (current_speaker : Option String) (index : ℕ) (filename : String),
      build_render_lists enable_diarization utterances current_speaker =
        build_render_lists enable_diarization
          (utterances.filter fun u => !isBlank u.transcription)
          current_speaker ∧
      generate_srt_lines index utterances =
        generate_srt_lines index
          (utterances.filter fun u => !isBlank u.transcription) ∧
      generate_srt utterances =
        generate_srt (utterances.filter fun u => !isBlank u.transcription) ∧
      generate_vtt utterances =
        generate_vtt (utterances.filter fun u => !isBlank u.transcription) ∧
      generate_markdown utterances filename =
        generate_markdown
          (utterances.filter fun u => !isBlank u.transcription) filename := by
  intro utterances e cur i filename
  refine ⟨build_render_lists_filter e utterances cur,
    generate_srt_lines_filter utterances i, ?_, ?_, ?_⟩
  · rw [generate_srt, generate_srt, generate_srt_lines_filter]
  · rw [generate_vtt, generate_vtt, generate_vtt_lines_filter]
  · rw [generate_markdown, generate_markdown, generate_md_lines_filter]

/-! ### Lemmas about the pipeline -/

theorem apply_diarization_throws_default (avail : Bool) (msg : String)
    (utterances : List Utt) (h : ∀ u ∈ utterances, u.speaker = none) :
    ∀ u ∈ apply_diarization avail (DiarOutcome.throws msg) utterances,
      u.speaker = some "Спикер №1" := by
  intro u hu
  cases avail with
  | false =>
      simp only [apply_diarization, Bool.not_false, if_true] at hu
      obtain ⟨v, hv, rfl⟩ := List.mem_map.mp hu
      rfl
  | true =>
      simp only [apply_diarization, diarize, Bool.not_true,
        Bool.false_eq_true, if_false] at hu
      obtain ⟨v, hv, rfl⟩ := List.mem_map.mp hu
      simp [h v hv]

theorem apply_diarization_throws_length (avail : Bool) (msg : String)
    (utterances : List Utt) :
    (apply_diarization avail (DiarOutcome.throws msg) utterances).length =
      utterances.length := by
  cases avail <;> simp [apply_diarization, diarize]

theorem save_files_txt_mem (formats : List String) (e : Bool)
    (n dir fn : String) (utts : List Utt) (ft : String) (tl : List String)
    (ftd : String) (tld : List String) (h : "txt" ∈ formats) :
    (dir ++ "/" ++ n ++ ".txt") ∈
      (save_files formats e n dir fn utts ft tl ftd tld).map Prod.fst := by
  refine List.mem_map.mpr ⟨(dir ++ "/" ++ n ++ ".txt", ft), ?_, rfl⟩
  rw [save_files]
  refine List.mem_flatMap.mpr ⟨"txt", h, ?_⟩
  simp [save_format]

/-- C5: when the diarization collaborator throws during the diarizing stage
(conversion and ASR succeeded, the stage runs because segments exist and
diarization was requested), the job is not failed: `process_file` still
reports success so the task reaches `'completed'`, every transcript segment
carries the non-null default label `"Спикер №1"`, and the requested
artifacts are still rendered and persisted. -/
theorem C5_diarization_failure_recoverable :
    ∀ (asr_utts : List AsrSegment) (msg : String) (avail : Bool)
      (fmts : Option (List String)) (filename name base dir : String)
      (disk : List String),
      asr_utts ≠ [] →
      (process_file ⟨true, ConvOutcome.ok, true, AsrOutcome.ok asr_utts,
          true, avail, DiarOutcome.throws msg, fmts⟩
        filename name base dir disk).success = true ∧
      task_status_after
        (process_file ⟨true, ConvOutcome.ok, true, AsrOutcome.ok asr_utts,
            true, avail, DiarOutcome.throws msg, fmts⟩
          filename name base dir disk).success = "completed" ∧
      (process_file ⟨true, ConvOutcome.ok, true, AsrOutcome.ok asr_utts,
          true, avail, DiarOutcome.throws msg, fmts⟩
        filename name base dir disk).utterances.length = asr_utts.length ∧
      (∀ u ∈ (process_file ⟨true, ConvOutcome.ok, true,
          AsrOutcome.ok asr_utts, true, avail, DiarOutcome.throws msg, fmts⟩
        filename name base dir disk).utterances,
        u.speaker = some "Спикер №1") ∧
      ("txt" ∈ fmts.getD ["txt"] →
        (dir ++ "/" ++ name ++ ".txt") ∈
          (process_file ⟨true, ConvOutcome.ok, true, AsrOutcome.ok asr_utts,
              true, avail, DiarOutcome.throws msg, fmts⟩
            filename name base dir disk).saved_files.map Prod.fst) := by
  intro asr_utts msg avail fmts filename name base dir disk hne
  have hne0 : (asr_utts.map fun a =>
      ({ transcription := a.transcription, boundaries := a.boundaries,
         speaker := none } : Utt)).isEmpty = false := by
    cases asr_utts with
    | nil => exact absurd rfl hne
    | cons a l => rfl
  refine ⟨rfl, rfl, ?_, ?_, ?_⟩
  · simp [process_file, convert_to_wav, hne0,
      apply_diarization_throws_length]
  · simp only [process_file, convert_to_wav, hne0, Bool.not_true,
      Bool.not_false, Bool.and_true, Bool.true_and, Bool.false_eq_true,
      if_false, if_true]
    exact apply_diarization_throws_default avail msg _ (by
      intro u hu
      obtain ⟨a, _, rfl⟩ := List.mem_map.mp hu
      rfl)
  · intro hmem
    exact save_files_txt_mem _ _ _ _ _ _ _ _ _ _ hmem

/-- A closed instance of `C5_diarization_failure_recoverable`: one segment,
a throwing diarizer, default `txt` output. -/
theorem C5_witness :
    (process_file ⟨true, ConvOutcome.ok, true,
        AsrOutcome.ok [⟨"привет", (0, 1)⟩], true, true,
        DiarOutcome.throws "сбой", none⟩
      "a.mp3" "a" "a.mp3" "out" []).success = true ∧
    (∀ u ∈ (process_file ⟨true, ConvOutcome.ok, true,
        AsrOutcome.ok [⟨"привет", (0, 1)⟩], true, true,
        DiarOutcome.throws "сбой", none⟩
      "a.mp3" "a" "a.mp3" "out" []).utterances,
      u.speaker = some "Спикер №1") ∧
    ("out" ++ "/" ++ "a" ++ ".txt") ∈
      (process_file ⟨true, ConvOutcome.ok, true,
          AsrOutcome.ok [⟨"привет", (0, 1)⟩], true, true,
          DiarOutcome.throws "сбой", none⟩
        "a.mp3" "a" "a.mp3" "out" []).saved_files.map Prod.fst := by
  have h := C5_diarization_failure_recoverable [⟨"привет", (0, 1)⟩] "сбой"
    true none "a.mp3" "a" "a.mp3" "out" [] (by simp)
  exact ⟨h.1, h.2.2.2.1, h.2.2.2.2 (by simp)⟩

/-- C6, counterexample to the claim as stated: when ffmpeg exits nonzero
after partially writing its output file, `convert_to_wav` returns `None`
without deleting the partial file, and `process_file` returns before its
`try/finally`, so a converted-audio temp WAV remains on disk after the job
fails at conversion. -/
theorem C6_counterexample :
    (process_file ⟨true, ConvOutcome.fail true, true, AsrOutcome.ok [],
        false, false, DiarOutcome.throws "", none⟩
      "f.mp3" "f" "f.mp3" "out" []).success = false ∧
    task_status_after
      (process_file ⟨true, ConvOutcome.fail true, true, AsrOutcome.ok [],
          false, false, DiarOutcome.throws "", none⟩
        "f.mp3" "f" "f.mp3" "out" []).success = "failed" ∧
    ("out" ++ "/" ++ temp_filename "f.mp3") ∈
      (process_file ⟨true, ConvOutcome.fail true, true, AsrOutcome.ok [],
          false, false, DiarOutcome.throws "", none⟩
        "f.mp3" "f" "f.mp3" "out" []).disk ∧
    (process_file ⟨true, ConvOutcome.fail true, true, AsrOutcome.ok [],
        false, false, DiarOutcome.throws "", none⟩
      "f.mp3" "f" "f.mp3" "out" []).disk ≠ [] := by
  refine ⟨rfl, rfl, ?_, ?_⟩
  · simp [process_file, convert_to_wav]
  · simp [process_file, convert_to_wav]

/-- C6 (amended): a null converter result — nonzero ffmpeg exit, with or
without a partial output file, or a missing ffmpeg — fails the job as a
conversion failure; on every path that passes conversion the temp WAV is
deleted on exit (the disk is restored); but a conversion failure itself
deletes nothing, so when the converter process wrote a partial output file
before exiting nonzero, that converted-audio file remains on disk. -/
theorem C6_conversion_failure :
    ∀ (filename name base dir : String) (disk : List String)
      (tv enable avail : Bool) (asr : AsrOutcome) (diar : DiarOutcome)
      (fmts : Option (List String)),
      (∀ wrote : Bool,
        (process_file ⟨true, ConvOutcome.fail wrote, tv, asr, enable, avail,
            diar, fmts⟩ filename name base dir disk).success = false ∧
        task_status_after
          (process_file ⟨true, ConvOutcome.fail wrote, tv, asr, enable,
              avail, diar, fmts⟩
            filename name base dir disk).success = "failed" ∧
        (process_file ⟨true, ConvOutcome.fail wrote, tv, asr, enable, avail,
            diar, fmts⟩ filename name base dir disk).disk =
          (if wrote then (dir ++ "/" ++ temp_filename base) :: disk
           else disk)) ∧
      ((process_file ⟨true, ConvOutcome.ffmpegMissing, tv, asr, enable,
          avail, diar, fmts⟩ filename name base dir disk).success = false ∧
        (process_file ⟨true, ConvOutcome.ffmpegMissing, tv, asr, enable,
          avail, diar, fmts⟩ filename name base dir disk).disk = disk) ∧
      (process_file ⟨true, ConvOutcome.ok, tv, asr, enable, avail, diar,
          fmts⟩ filename name base dir disk).disk = disk := by
  intro filename name base dir disk tv enable avail asr diar fmts
  refine ⟨fun wrote => ⟨rfl, rfl, rfl⟩, ⟨rfl, rfl⟩, ?_⟩
  cases tv <;> cases asr <;>
    simp [process_file, convert_to_wav, List.erase_cons_head]

/-! ### Lemmas about the empty-transcription path -/

theorem save_format_empty (fmt : String) (e : Bool) (n dir fn : String) :
    ∀ pc ∈ save_format fmt e n dir fn [] "" [] "" [],
      pc.2 = "" ∨ pc.2 = generate_vtt [] ∨ pc.2 = generate_markdown [] fn := by
  intro pc hpc
  by_cases h1 : fmt = "txt"
  · subst h1
    have hblank : isBlank "" = true := rfl
    simp only [save_format, if_true, hblank, Bool.not_true, Bool.and_false,
      Bool.false_eq_true, if_false, List.append_nil, List.mem_cons,
      List.mem_singleton, reduceIte] at hpc
    rcases hpc with rfl | rfl | h
    · exact Or.inl rfl
    · exact Or.inl rfl
    · simp at h
  · by_cases h2 : fmt = "md"
    · subst h2
      simp only [save_format] at hpc
      rw [if_neg h1] at hpc
      simp only [if_true] at hpc
      rw [List.mem_singleton] at hpc
      subst hpc
      exact Or.inr (Or.inr rfl)
    · by_cases h3 : fmt = "srt"
      · subst h3
        simp only [save_format] at hpc
        rw [if_neg h1, if_neg h2] at hpc
        simp only [if_true] at hpc
        rw [List.mem_singleton] at hpc
        subst hpc
        exact Or.inl rfl
      · by_cases h4 : fmt = "vtt"
        · subst h4
          simp only [save_format] at hpc
          rw [if_neg h1, if_neg h2, if_neg h3] at hpc
          simp only [if_true] at hpc
          rw [List.mem_singleton] at hpc
          subst hpc
          exact Or.inr (Or.inl rfl)
        · simp [save_format, h1, h2, h3, h4] at hpc

/-- C7: an empty ASR segment list is a soft condition — the job still
succeeds and reaches `'completed'`, the VAD warning is logged, and the
persisted artifacts are the renders of the empty segment list (empty
strings for the text, timecode and SRT outputs; the bare `WEBVTT` header;
the bare Markdown header) — distinguishing a processed-but-silent file from
a failed one. -/
theorem C7_empty_transcription_completes :
    ∀ (enable avail : Bool) (diar : DiarOutcome)
      (fmts : Option (List String)) (filename name base dir : String)
      (disk : List String),
      (process_file ⟨true, ConvOutcome.ok, true, AsrOutcome.ok [], enable,
          avail, diar, fmts⟩ filename name base dir disk).success = true ∧
      task_status_after
        (process_file ⟨true, ConvOutcome.ok, true, AsrOutcome.ok [], enable,
            avail, diar, fmts⟩
          filename name base dir disk).success = "completed" ∧
      LogEvent.emptySegmentsWarning ∈
        (process_file ⟨true, ConvOutcome.ok, true, AsrOutcome.ok [], enable,
            avail, diar, fmts⟩ filename name base dir disk).log ∧
      (process_file ⟨true, ConvOutcome.ok, true, AsrOutcome.ok [], enable,
          avail, diar, fmts⟩ filename name base dir disk).utterances = [] ∧
      (∀ pc ∈ (process_file ⟨true, ConvOutcome.ok, true, AsrOutcome.ok [],
          enable, avail, diar, fmts⟩ filename name base dir disk).saved_files,
        pc.2 = "" ∨ pc.2 = generate_vtt [] ∨
          pc.2 = generate_markdown [] filename) ∧
      (fmts = none →
        (process_file ⟨true, ConvOutcome.ok, true, AsrOutcome.ok [], enable,
            avail, diar, fmts⟩ filename name base dir disk).saved_files =
          [(dir ++ "/" ++ name ++ ".txt", ""),
           (dir ++ "/" ++ name ++ "_timecodes.txt", "")]) := by
  intro enable avail diar fmts filename name base dir disk
  have hred : process_file ⟨true, ConvOutcome.ok, true, AsrOutcome.ok [],
      enable, avail, diar, fmts⟩ filename name base dir disk =
      { success := true, utterances := [],
        saved_files := save_files (fmts.getD ["txt"]) enable name dir
          filename [] "" [] "" [],
        disk := disk, log := [LogEvent.emptySegmentsWarning] } := by
    simp [process_file, convert_to_wav, List.erase_cons_head]
  rw [hred]
  refine ⟨rfl, rfl, by simp, rfl, ?_, ?_⟩
  · intro pc hpc
    rw [save_files] at hpc
    obtain ⟨fmt, _, hmem⟩ := List.mem_flatMap.mp hpc
    exact save_format_empty fmt enable name dir filename pc hmem
  · intro hnone
    subst hnone
    have hblank : isBlank "" = true := rfl
    simp [save_files, save_format, hblank]
    rfl
